import Mathlib

/- Verification of the freakforge combine-data importer
   (src/freakforge/backend/import_combine_data.py).

   Modelling conventions of the shallow embedding:
   * Python strings are lists of characters;
   * Python floats are exact rationals (the statistics module computes
     mean and variance exactly over Fractions; final rounding to two
     decimal places is far coarser than double precision for the inputs
     considered here); the strings inf, infinity and nan, which denote
     values that are not rationals, are treated as unparseable;
   * Python dicts are insertion-ordered association lists;
   * operations that can raise are modelled in Except, with the pure
     Option-valued versions proved equal to the checked ones. -/

/-- Python whitespace test used by str.strip and by the regex class \s
    (ASCII range). -/
def isSpaceChar (c : Char) : Bool :=
  c = ' ' || c = '\t' || c = '\n' || c = '\r' || c = '\x0b' || c = '\x0c'

/-- Test for an ASCII decimal digit, the regex class \d (ASCII range). -/
def isDigitChar (c : Char) : Bool :=
  '0' ≤ c && c ≤ '9'

/-- Python str.strip: remove leading and trailing whitespace. -/
def trim (l : List Char) : List Char :=
  ((l.dropWhile isSpaceChar).reverse.dropWhile isSpaceChar).reverse

/-- Decimal value of a digit run, as computed by Python int on a digit
    string. -/
def digitsVal (l : List Char) : Nat :=
  l.foldl (fun a c => 10 * a + (c.toNat - 48)) 0

/-- Optional leading sign of a numeric literal: returns (isNegative, rest). -/
def readSign : List Char → Bool × List Char
  | '+' :: r => (false, r)
  | '-' :: r => (true, r)
  | r => (false, r)

/-- Multiply a mantissa by a signed power of ten, kept in ℚ. -/
def applyExp (m : ℚ) (neg : Bool) (e : Nat) : ℚ :=
  if neg then m / (10 : ℚ) ^ e else m * (10 : ℚ) ^ e

/-- Exponent part of a float literal: empty input means exponent 0; an
    e or E must be followed by an optional sign and a nonempty digit run
    that ends the string. Returns (isNegativeExponent, digits). -/
def parseExpPart : List Char → Option (Bool × Nat)
  | [] => some (false, 0)
  | c :: r2 =>
    if c = 'e' ∨ c = 'E' then
      let s := readSign r2
      let ed := s.2.takeWhile isDigitChar
      let r4 := s.2.dropWhile isDigitChar
      if ed.isEmpty ∨ ¬r4.isEmpty then none
      else some (s.1, digitsVal ed)
    else none

/-- Mantissa of a float literal: digits with an optional decimal point;
    at least one digit must be present. Returns the value and the rest of
    the string. -/
def parseMantissa (cs : List Char) : Option (ℚ × List Char) :=
  let ip := cs.takeWhile isDigitChar
  let r1 := cs.dropWhile isDigitChar
  match r1 with
  | '.' :: r2 =>
    let fp := r2.takeWhile isDigitChar
    let r3 := r2.dropWhile isDigitChar
    if ip.isEmpty ∧ fp.isEmpty then none
    else some ((digitsVal ip : ℚ) + (digitsVal fp : ℚ) / (10 : ℚ) ^ fp.length, r3)
  | _ => if ip.isEmpty then none else some ((digitsVal ip : ℚ), r1)

/-- Python float() applied to a string: strip whitespace, optional sign,
    decimal mantissa, optional exponent. Returns none where float()
    raises ValueError (and on inf and nan, which have no rational
    value). -/
def pyFloatParse (cs : List Char) : Option ℚ :=
  let t := trim cs
  let s := readSign t
  match parseMantissa s.2 with
  | none => none
  | some (m, r2) =>
    match parseExpPart r2 with
    | none => none
    | some (eneg, e) =>
      let v := applyExp m eneg e
      some (if s.1 then -v else v)

/-- clean_numeric_value (import_combine_data.py, lines 36-43): None or a
    blank string maps to None, otherwise float() is attempted and a
    parse failure is caught and mapped to None. -/
def clean_numeric_value (value : Option (List Char)) : Option ℚ :=
  match value with
  | none => none
  | some s => if (trim s).isEmpty then none else pyFloatParse s

/-- First regex of parse_height_to_inches, the pattern of digits, an
    optional quote, optional whitespace, digits, applied with re.match
    semantics (anchored at the start only). Returns the two digit-run
    groups. The leading digit group is greedy: it first takes the whole
    leading digit run; if no second digit group can then be found the
    engine gives back one digit, which itself becomes the second group.
    Returns none when the string does not start with a digit or only a
    single digit is available in total. -/
def regexFeetInches (cs : List Char) : Option (List Char × List Char) :=
  let d := cs.takeWhile isDigitChar
  let rest := cs.dropWhile isDigitChar
  if d.isEmpty then none
  else
    let rest2 := if rest.head? = some '\'' then rest.tail else rest
    let rest3 := rest2.dropWhile isSpaceChar
    let g2 := rest3.takeWhile isDigitChar
    if g2.isEmpty then
      if 2 ≤ d.length then some (d.dropLast, [d.getLastD '0']) else none
    else some (d, g2)

/-- Second regex of parse_height_to_inches, digits followed by a quote,
    anchored at the start. -/
def regexFeetOnly (cs : List Char) : Option (List Char) :=
  let d := cs.takeWhile isDigitChar
  let rest := cs.dropWhile isDigitChar
  if d.isEmpty then none
  else
    match rest with
    | '\'' :: _ => some d
    | _ => none

/-- parse_height_to_inches (import_combine_data.py, lines 11-34): blank
    input maps to None; otherwise the stripped string is matched against
    the feet-and-inches pattern, then against the feet-and-quote
    pattern; an unmatched string maps to None. -/
def parse_height_to_inches (s : List Char) : Option ℚ :=
  let t := trim s
  if t.isEmpty then none
  else
    match regexFeetInches t with
    | some (f, i) => some ((digitsVal f * 12 + digitsVal i : ℕ) : ℚ)
    | none =>
      match regexFeetOnly t with
      | some f => some ((digitsVal f * 12 : ℕ) : ℚ)
      | none => none

/-- Python int() applied to a regex group, modelled as fallible: it
    succeeds exactly on nonempty digit runs (the only shapes the groups
    can take). -/
def intParseChecked (cs : List Char) : Except Unit Nat :=
  if cs ≠ [] ∧ cs.all isDigitChar then Except.ok (digitsVal cs) else Except.error ()

/-- parse_height_to_inches with every int() conversion routed through
    the fallible model; there is no exception handler in the source, so
    an error here would propagate to the caller. -/
def parseHeightChecked (s : List Char) : Except Unit (Option ℚ) :=
  let t := trim s
  if t.isEmpty then Except.ok none
  else
    match regexFeetInches t with
    | some (f, i) => do
      let a ← intParseChecked f
      let b ← intParseChecked i
      Except.ok (some ((a * 12 + b : ℕ) : ℚ))
    | none =>
      match regexFeetOnly t with
      | some f => do
        let a ← intParseChecked f
        Except.ok (some ((a * 12 : ℕ) : ℚ))
      | none => Except.ok none

/-- float() modelled as fallible: error where it raises ValueError. -/
def pyFloatChecked (cs : List Char) : Except Unit ℚ :=
  match pyFloatParse cs with
  | some q => Except.ok q
  | none => Except.error ()

/-- clean_numeric_value with the float() call routed through the
    fallible model; the except clause of the source catches the error
    and returns None. -/
def cleanNumericChecked (value : Option (List Char)) : Except Unit (Option ℚ) :=
  match value with
  | none => Except.ok none
  | some s =>
    if (trim s).isEmpty then Except.ok none
    else
      match pyFloatChecked s with
      | Except.ok q => Except.ok (some q)
      | Except.error _ => Except.ok none

example : pyFloatParse ['4', '.', '5'] = some (9 / 2) := by
  simp +decide [pyFloatParse, parseMantissa, parseExpPart, readSign, trim,
    applyExp, digitsVal, isSpaceChar, isDigitChar] <;> norm_num
example : pyFloatParse ['4', '7', 'e', '-', '1'] = some (47 / 10) := by
  simp +decide [pyFloatParse, parseMantissa, parseExpPart, readSign, trim,
    applyExp, digitsVal, isSpaceChar, isDigitChar] <;> norm_num
example : pyFloatParse ['a'] = none := by decide
example : clean_numeric_value (some ['0']) = some 0 := by
  simp +decide [clean_numeric_value, pyFloatParse, parseMantissa, parseExpPart,
    readSign, trim, applyExp, digitsVal, isSpaceChar, isDigitChar] <;> norm_num
example : parse_height_to_inches ['6', '\'', ' ', '1'] = some 73 := by decide
example : parse_height_to_inches ['6', '\''] = some 72 := by decide
example : parse_height_to_inches ['6', '2'] = some 74 := by decide
example : parse_height_to_inches ['1', '2', '\''] = some 14 := by decide
example : parse_height_to_inches [' ', ' '] = none := by decide
example : parse_height_to_inches ['x', '6'] = none := by decide

/-- One raw CSV row as seen through row.get on the fixed column names the
    importer reads; a none field models an absent column. -/
structure RawRow where
  first_name : Option (List Char) := none
  last_name : Option (List Char) := none
  position : Option (List Char) := none
  state : Option (List Char) := none
  grad_year : Option (List Char) := none
  height : Option (List Char) := none
  weight : Option (List Char) := none
  forty_yard_dash : Option (List Char) := none
  vertical_jump : Option (List Char) := none
  broad_jump : Option (List Char) := none
  shuttle_run : Option (List Char) := none
  three_cone : Option (List Char) := none
  conditions : Option (List Char) := none
deriving DecidableEq

/-- The normalized athlete object built at lines 76-95 of the source. -/
structure AthleteRecord where
  id : Nat
  firstName : List Char
  lastName : List Char
  position : List Char
  state : List Char
  gradYear : Option ℚ
  height : Option ℚ
  weight : Option ℚ
  dash40 : Option ℚ
  verticalJump : Option ℚ
  broadJump : Option ℚ
  proAgility : Option ℚ
  lDrill : Option ℚ
  conditions : List Char
deriving DecidableEq

/-- Build the athlete object for one row, given the number n of athletes
    already accepted (the source computes id as len(athletes) + 1 before
    the append). -/
def mkAthlete (n : Nat) (r : RawRow) : AthleteRecord :=
  { id := n + 1
  , firstName := trim (r.first_name.getD [])
  , lastName := trim (r.last_name.getD [])
  , position := trim (r.position.getD [])
  , state := trim (r.state.getD [])
  , gradYear := clean_numeric_value r.grad_year
  , height := parse_height_to_inches (r.height.getD [])
  , weight := clean_numeric_value r.weight
  , dash40 := clean_numeric_value r.forty_yard_dash
  , verticalJump := clean_numeric_value r.vertical_jump
  , broadJump := clean_numeric_value r.broad_jump
  , proAgility := clean_numeric_value r.shuttle_run
  , lDrill := clean_numeric_value r.three_cone
  , conditions := trim (r.conditions.getD []) }

/-- Python truthiness of an optional float: None and 0.0 are falsy,
    every other number is truthy. -/
def truthy : Option ℚ → Bool
  | none => false
  | some x => decide (x ≠ 0)

/-- The retention test at line 98 of the source: any of the list of the
    five metric values, which is Python truthiness of each element. -/
def acceptAthlete (a : AthleteRecord) : Bool :=
  truthy a.dash40 || truthy a.verticalJump || truthy a.broadJump ||
    truthy a.height || truthy a.weight

/-- The running summary dict of the source (lines 50-58); frequency
    tables are insertion-ordered association lists. -/
structure CombineSummary where
  total_athletes : Nat
  with_40_time : Nat
  with_vertical : Nat
  with_broad_jump : Nat
  positions : List (List Char × Nat)
  states : List (List Char × Nat)
  grad_years : List (List Char × Nat)
deriving DecidableEq

def initSummary : CombineSummary :=
  { total_athletes := 0, with_40_time := 0, with_vertical := 0
  , with_broad_jump := 0, positions := [], states := [], grad_years := [] }

/-- d[k] = d.get(k, 0) + 1 on a Python dict: an existing key keeps its
    place in insertion order, a new key is appended. -/
def bump : List (List Char × Nat) → List Char → List (List Char × Nat)
  | [], k => [(k, 1)]
  | (k', v) :: rest, k =>
    if k = k' then (k', v + 1) :: rest else (k', v) :: bump rest k

/-- Python int() truncation toward zero of a float, as in str(int(year)). -/
def truncQ (q : ℚ) : Int :=
  if 0 ≤ q then ⌊q⌋ else ⌈q⌉

/-- Decimal rendering of an integer, as in str(int(year)). -/
def intKey (z : Int) : List Char :=
  if z < 0 then '-' :: Nat.toDigits 10 z.natAbs else Nat.toDigits 10 z.natAbs

/-- The per-accepted-athlete statistics update of lines 101-122.  The
    three presence counters and the grad-year table test Python
    truthiness; the state table tests non-emptiness of the string. -/
def updateSummary (s : CombineSummary) (a : AthleteRecord) : CombineSummary :=
  { total_athletes := s.total_athletes + 1
  , with_40_time := if truthy a.dash40 then s.with_40_time + 1 else s.with_40_time
  , with_vertical := if truthy a.verticalJump then s.with_vertical + 1 else s.with_vertical
  , with_broad_jump := if truthy a.broadJump then s.with_broad_jump + 1 else s.with_broad_jump
  , positions := bump s.positions a.position
  , states := if a.state.isEmpty then s.states else bump s.states a.state
  , grad_years :=
      match a.gradYear with
      | none => s.grad_years
      | some y => if y = 0 then s.grad_years else bump s.grad_years (intKey (truncQ y)) }

/-- The body of the row loop (lines 63-122): build the athlete, and if
    it passes the retention test append it and update the summary. -/
def importStep (acc : List AthleteRecord × CombineSummary) (r : RawRow) :
    List AthleteRecord × CombineSummary :=
  let a := mkAthlete acc.1.length r
  if acceptAthlete a then (acc.1 ++ [a], updateSummary acc.2 a) else acc

/-- The full row loop: one left fold over the input rows. -/
def processRows (rows : List RawRow) : List AthleteRecord × CombineSummary :=
  rows.foldl importStep ([], initSummary)

/-- The accepted athletes of a row list, starting from n athletes
    already accepted; used as the specification-side description of the
    loop. -/
def acceptedAthletes : List RawRow → Nat → List AthleteRecord
  | [], _ => []
  | r :: rs, n =>
    let a := mkAthlete n r
    if acceptAthlete a then a :: acceptedAthletes rs (n + 1)
    else acceptedAthletes rs n

/-- The seven numeric metrics of calculate_metric_statistics. -/
inductive Metric
  | dash40
  | verticalJump
  | broadJump
  | proAgility
  | lDrill
  | height
  | weight
deriving DecidableEq

/-- Field access a[metric] on an athlete object. -/
def Metric.get : Metric → AthleteRecord → Option ℚ
  | .dash40, a => a.dash40
  | .verticalJump, a => a.verticalJump
  | .broadJump, a => a.broadJump
  | .proAgility, a => a.proAgility
  | .lDrill, a => a.lDrill
  | .height, a => a.height
  | .weight, a => a.weight

/-- statistics.mean over exact values (the statistics module computes the
    mean of floats exactly through Fractions). -/
def listMean (l : List ℚ) : ℚ :=
  l.sum / l.length

/-- Sample variance with denominator N - 1, the quantity under the square
    root in statistics.stdev. -/
def sampleVarQ (l : List ℚ) : ℚ :=
  (l.map (fun x => (x - listMean l) ^ 2)).sum / ((l.length : ℚ) - 1)

/-- Python min over a nonempty list (the empty case never arises under
    the length guard; it is modelled separately as an error). -/
def listMinQ : List ℚ → ℚ
  | [] => 0
  | x :: xs => xs.foldl min x

/-- Python max over a nonempty list. -/
def listMaxQ : List ℚ → ℚ
  | [] => 0
  | x :: xs => xs.foldl max x

/-- Python round(x, 2): round to an integer number of hundredths.
    Mathlib round is round-half-up while Python rounds ties to even, but
    no quantity in this development sits on an exact tie. -/
noncomputable def round2 (x : ℝ) : ℝ :=
  ((round (x * 100) : ℤ) : ℝ) / 100

/-- One entry of the metricStatistics dict. -/
structure MetricStat where
  mean : Option ℝ
  std : Option ℝ
  min : Option ℝ
  max : Option ℝ
  count : Nat

/-- The per-metric computation of calculate_metric_statistics (lines
    161-179): with more than one value, mean, sample standard deviation,
    min and max are computed and rounded to 2 decimal places; otherwise
    all four are None and only the count is reported. -/
noncomputable def calcMetric (vs : List ℚ) : MetricStat :=
  if 1 < vs.length then
    { mean := some (round2 ((listMean vs : ℚ) : ℝ))
    , std := some (round2 (Real.sqrt ((sampleVarQ vs : ℚ) : ℝ)))
    , min := some (round2 ((listMinQ vs : ℚ) : ℝ))
    , max := some (round2 ((listMaxQ vs : ℚ) : ℝ))
    , count := vs.length }
  else
    { mean := none, std := none, min := none, max := none, count := vs.length }

/-- statistics.mean modelled as fallible: StatisticsError on an empty
    list. -/
noncomputable def meanChecked (l : List ℚ) : Except Unit ℝ :=
  if l.isEmpty then Except.error () else Except.ok ((listMean l : ℚ) : ℝ)

/-- statistics.stdev modelled as fallible: StatisticsError on fewer than
    two values. -/
noncomputable def stdevChecked (l : List ℚ) : Except Unit ℝ :=
  if l.length < 2 then Except.error ()
  else Except.ok (Real.sqrt ((sampleVarQ l : ℚ) : ℝ))

/-- Python min modelled as fallible: ValueError on an empty list. -/
noncomputable def minChecked (l : List ℚ) : Except Unit ℝ :=
  if l.isEmpty then Except.error () else Except.ok ((listMinQ l : ℚ) : ℝ)

/-- Python max modelled as fallible: ValueError on an empty list. -/
noncomputable def maxChecked (l : List ℚ) : Except Unit ℝ :=
  if l.isEmpty then Except.error () else Except.ok ((listMaxQ l : ℚ) : ℝ)

/-- The per-metric computation with every statistics call routed through
    the fallible models, in the evaluation order of the source dict
    literal; an error in any of them would propagate out of
    calculate_metric_statistics. -/
noncomputable def calcMetricChecked (vs : List ℚ) : Except Unit MetricStat :=
  if 1 < vs.length then do
    let m ← meanChecked vs
    let s ← stdevChecked vs
    let mn ← minChecked vs
    let mx ← maxChecked vs
    Except.ok { mean := some (round2 m), std := some (round2 s)
              , min := some (round2 mn), max := some (round2 mx)
              , count := vs.length }
  else
    Except.ok { mean := none, std := none, min := none, max := none
              , count := vs.length }

/-- calculate_metric_statistics (lines 154-181): for each of the seven
    metrics, collect the non-None values across the athletes in order
    and compute the per-metric summary. -/
noncomputable def calculate_metric_statistics (athletes : List AthleteRecord) :
    Metric → MetricStat :=
  fun m => calcMetric (athletes.filterMap m.get)

/-- The output document assembled at lines 128-134. -/
structure OutputDocument where
  athletes : List AthleteRecord
  summary : CombineSummary
  metricStatistics : Metric → MetricStat
  dataSource : List Char
  totalRecords : Nat

/-- process_combine_data (lines 45-152), minus the file I/O at either
    end: fold the row loop over the input rows, compute the metric
    statistics of the accepted athletes, and assemble the output. -/
noncomputable def process_combine_data (rows : List RawRow) : OutputDocument :=
  { athletes := (processRows rows).1
  , summary := (processRows rows).2
  , metricStatistics := calculate_metric_statistics (processRows rows).1
  , dataSource := ("Kaggle - High School Football Combine Dataset").toList
  , totalRecords := (processRows rows).1.length }

/-! ### The row loop as a fold, described by acceptedAthletes -/

theorem foldl_importStep (rows : List RawRow) :
    ∀ (acc : List AthleteRecord) (s : CombineSummary),
      List.foldl importStep (acc, s) rows =
        (acc ++ acceptedAthletes rows acc.length,
         List.foldl updateSummary s (acceptedAthletes rows acc.length)) := by
  induction rows with
  | nil => intro acc s; simp [acceptedAthletes]
  | cons r rs ih =>
    intro acc s
    simp only [List.foldl_cons, importStep, acceptedAthletes]
    by_cases h : acceptAthlete (mkAthlete acc.length r) = true
    · simp only [h, if_true, ih, List.length_append, List.length_cons,
        List.length_nil, List.foldl_cons]
      simp [List.append_assoc]
    · simp only [h, if_false, ih]
      rfl

theorem processRows_eq (rows : List RawRow) :
    processRows rows =
      (acceptedAthletes rows 0,
       List.foldl updateSummary initSummary (acceptedAthletes rows 0)) := by
  simpa using foldl_importStep rows [] initSummary

theorem accepted_all_accept :
    ∀ (rows : List RawRow) (n : Nat) (a : AthleteRecord),
      a ∈ acceptedAthletes rows n → acceptAthlete a = true := by
  intro rows
  induction rows with
  | nil => intro n a h; simp [acceptedAthletes] at h
  | cons r rs ih =>
    intro n a h
    simp only [acceptedAthletes] at h
    by_cases hr : acceptAthlete (mkAthlete n r) = true
    · rw [if_pos hr] at h
      rcases List.mem_cons.mp h with h1 | h2
      · rw [h1]; exact hr
      · exact ih _ _ h2
    · rw [if_neg hr] at h
      exact ih _ _ h

theorem acceptAthlete_mkAthlete_id (k : Nat) (r : RawRow) :
    acceptAthlete (mkAthlete k r) = acceptAthlete (mkAthlete 0 r) := rfl

theorem mkAthlete_mem_accepted
    (rows : List RawRow) (r : RawRow) (hr : r ∈ rows)
    (hacc : acceptAthlete (mkAthlete 0 r) = true) :
    ∀ n : Nat, ∃ k, mkAthlete k r ∈ acceptedAthletes rows n := by
  induction rows with
  | nil => cases hr
  | cons r' rs ih =>
    intro n
    rcases List.mem_cons.mp hr with h1 | h2
    · subst h1
      have h : acceptAthlete (mkAthlete n r) = true := by
        rw [acceptAthlete_mkAthlete_id]; exact hacc
      refine ⟨n, ?_⟩
      simp only [acceptedAthletes, if_pos h]
      exact List.mem_cons_self _ _
    · simp only [acceptedAthletes]
      by_cases h : acceptAthlete (mkAthlete n r') = true
      · rw [if_pos h]
        obtain ⟨k, hk⟩ := ih h2 (n + 1)
        exact ⟨k, List.mem_cons_of_mem _ hk⟩
      · rw [if_neg h]
        exact ih h2 n

theorem acceptedAthletes_ids :
    ∀ (rows : List RawRow) (n : Nat),
      (acceptedAthletes rows n).map AthleteRecord.id =
        List.range' (n + 1) (acceptedAthletes rows n).length := by
  intro rows
  induction rows with
  | nil => intro n; simp [acceptedAthletes]
  | cons r rs ih =>
    intro n
    simp only [acceptedAthletes]
    by_cases h : acceptAthlete (mkAthlete n r) = true
    · rw [if_pos h]
      simp only [List.map_cons, List.length_cons, List.range'_succ, mkAthlete]
      rw [ih (n + 1)]
    · rw [if_neg h]
      exact ih n

/-- C7: the ids of the accepted athletes in the output are exactly
    1, 2, ..., N in order, N being the number of accepted records; ids
    are dense and 1-based over the accepted subset, and a rejected row
    never consumes an id slot. -/
theorem output_ids_dense_one_based (rows : List RawRow) :
    (process_combine_data rows).athletes.map AthleteRecord.id =
      List.range' 1 (process_combine_data rows).athletes.length := by
  show (processRows rows).1.map AthleteRecord.id =
    List.range' 1 (processRows rows).1.length
  rw [processRows_eq]
  exact acceptedAthletes_ids rows 0

/-- C8: the totalRecords field of the output document equals the length
    of its athletes sequence (by construction of the output record). -/
theorem totalRecords_eq_athletes_length (rows : List RawRow) :
    (process_combine_data rows).totalRecords =
      (process_combine_data rows).athletes.length := rfl

/-! ### Summary accumulation lemmas -/

theorem foldl_update_total :
    ∀ (A : List AthleteRecord) (s : CombineSummary),
      (List.foldl updateSummary s A).total_athletes = s.total_athletes + A.length := by
  intro A
  induction A with
  | nil => intro s; simp
  | cons a A ih =>
    intro s
    simp only [List.foldl_cons, List.length_cons, ih, updateSummary]
    omega

theorem foldl_update_with40 :
    ∀ (A : List AthleteRecord) (s : CombineSummary),
      (List.foldl updateSummary s A).with_40_time =
        s.with_40_time + A.countP (fun a => truthy a.dash40) := by
  intro A
  induction A with
  | nil => intro s; simp
  | cons a A ih =>
    intro s
    simp only [List.foldl_cons, List.countP_cons, ih, updateSummary]
    by_cases h : truthy a.dash40 = true <;> simp [h] <;> omega

theorem foldl_update_withVert :
    ∀ (A : List AthleteRecord) (s : CombineSummary),
      (List.foldl updateSummary s A).with_vertical =
        s.with_vertical + A.countP (fun a => truthy a.verticalJump) := by
  intro A
  induction A with
  | nil => intro s; simp
  | cons a A ih =>
    intro s
    simp only [List.foldl_cons, List.countP_cons, ih, updateSummary]
    by_cases h : truthy a.verticalJump = true <;> simp [h] <;> omega

theorem foldl_update_withBroad :
    ∀ (A : List AthleteRecord) (s : CombineSummary),
      (List.foldl updateSummary s A).with_broad_jump =
        s.with_broad_jump + A.countP (fun a => truthy a.broadJump) := by
  intro A
  induction A with
  | nil => intro s; simp
  | cons a A ih =>
    intro s
    simp only [List.foldl_cons, List.countP_cons, ih, updateSummary]
    by_cases h : truthy a.broadJump = true <;> simp [h] <;> omega

theorem foldl_update_positions :
    ∀ (A : List AthleteRecord) (s : CombineSummary),
      (List.foldl updateSummary s A).positions =
        A.foldl (fun d a => bump d a.position) s.positions := by
  intro A
  induction A with
  | nil => intro s; rfl
  | cons a A ih =>
    intro s
    simp only [List.foldl_cons, ih]
    rfl

theorem bump_sum (d : List (List Char × Nat)) (k : List Char) :
    ((bump d k).map Prod.snd).sum = (d.map Prod.snd).sum + 1 := by
  induction d with
  | nil => simp [bump]
  | cons p rest ih =>
    obtain ⟨k', v⟩ := p
    by_cases h : k = k'
    · simp [bump, h]; omega
    · simp [bump, h, ih]; omega

theorem bump_mem_self (d : List (List Char × Nat)) (k : List Char) :
    k ∈ (bump d k).map Prod.fst := by
  induction d with
  | nil => simp [bump]
  | cons p rest ih =>
    obtain ⟨k', v⟩ := p
    by_cases h : k = k'
    · simp [bump, h]
    · rw [show bump ((k', v) :: rest) k = (k', v) :: bump rest k by simp [bump, h]]
      simp only [List.map_cons]
      exact List.mem_cons_of_mem _ ih

theorem bump_mem_mono (d : List (List Char × Nat)) (k j : List Char)
    (h : j ∈ d.map Prod.fst) : j ∈ (bump d k).map Prod.fst := by
  induction d with
  | nil => simp [bump] at h
  | cons p rest ih =>
    obtain ⟨k', v⟩ := p
    by_cases hk : k = k'
    · simpa [bump, hk] using h
    · simp [bump, hk] at h ⊢
      rcases h with h1 | h2
      · exact Or.inl h1
      · exact Or.inr (by simpa using ih (by simpa using h2))

theorem posFold_sum :
    ∀ (A : List AthleteRecord) (p : List (List Char × Nat)),
      ((A.foldl (fun d a => bump d a.position) p).map Prod.snd).sum =
        (p.map Prod.snd).sum + A.length := by
  intro A
  induction A with
  | nil => intro p; simp
  | cons a A ih =>
    intro p
    simp only [List.foldl_cons, List.length_cons, ih, bump_sum]
    omega

theorem posFold_mono :
    ∀ (A : List AthleteRecord) (p : List (List Char × Nat)) (j : List Char),
      j ∈ p.map Prod.fst →
        j ∈ (A.foldl (fun d a => bump d a.position) p).map Prod.fst := by
  intro A
  induction A with
  | nil => intro p j h; simpa using h
  | cons a A ih =>
    intro p j h
    simp only [List.foldl_cons]
    exact ih _ _ (bump_mem_mono _ _ _ h)

theorem posFold_mem :
    ∀ (A : List AthleteRecord) (p : List (List Char × Nat)) (a : AthleteRecord),
      a ∈ A → a.position ∈ (A.foldl (fun d a => bump d a.position) p).map Prod.fst := by
  intro A
  induction A with
  | nil => intro p a h; cases h
  | cons b A ih =>
    intro p a h
    simp only [List.foldl_cons]
    rcases List.mem_cons.mp h with h1 | h2
    · subst h1
      exact posFold_mono A _ _ (bump_mem_self _ _)
    · exact ih _ _ h2

/-! ### Claim theorems about membership and the summary -/

/-- C1 (amended): an athlete built from an input row is present in the
    output sequence if and only if at least one of dash40, verticalJump,
    broadJump, height, weight is truthy, that is non-null AND nonzero
    (the source tests Python truthiness, under which 0.0 counts as
    absent). -/
theorem athlete_present_iff_truthy_metric (rows : List RawRow) (r : RawRow)
    (h : r ∈ rows) :
    (∃ k, mkAthlete k r ∈ (process_combine_data rows).athletes) ↔
      (truthy (mkAthlete 0 r).dash40 = true ∨
       truthy (mkAthlete 0 r).verticalJump = true ∨
       truthy (mkAthlete 0 r).broadJump = true ∨
       truthy (mkAthlete 0 r).height = true ∨
       truthy (mkAthlete 0 r).weight = true) := by
  show (∃ k, mkAthlete k r ∈ (processRows rows).1) ↔ _
  rw [processRows_eq]
  constructor
  · rintro ⟨k, hk⟩
    have hacc := accepted_all_accept rows 0 _ hk
    rw [acceptAthlete_mkAthlete_id] at hacc
    simp only [acceptAthlete, Bool.or_eq_true] at hacc
    tauto
  · intro hr
    have hacc : acceptAthlete (mkAthlete 0 r) = true := by
      simp only [acceptAthlete, Bool.or_eq_true]
      tauto
    exact mkAthlete_mem_accepted rows r h hacc 0

/-- C3 (amended): the three presence counters of the summary count the
    accepted athletes whose corresponding field is truthy, that is
    non-null AND nonzero (the source tests Python truthiness, under
    which a parsed 0.0 is not counted). -/
theorem summary_presence_counts (rows : List RawRow) :
    (process_combine_data rows).summary.with_40_time =
        (process_combine_data rows).athletes.countP (fun a => truthy a.dash40) ∧
    (process_combine_data rows).summary.with_vertical =
        (process_combine_data rows).athletes.countP (fun a => truthy a.verticalJump) ∧
    (process_combine_data rows).summary.with_broad_jump =
        (process_combine_data rows).athletes.countP (fun a => truthy a.broadJump) := by
  show (processRows rows).2.with_40_time =
        (processRows rows).1.countP (fun a => truthy a.dash40) ∧
      (processRows rows).2.with_vertical =
        (processRows rows).1.countP (fun a => truthy a.verticalJump) ∧
      (processRows rows).2.with_broad_jump =
        (processRows rows).1.countP (fun a => truthy a.broadJump)
  rw [processRows_eq]
  refine ⟨?_, ?_, ?_⟩
  · simpa [initSummary] using
      foldl_update_with40 (acceptedAthletes rows 0) initSummary
  · simpa [initSummary] using
      foldl_update_withVert (acceptedAthletes rows 0) initSummary
  · simpa [initSummary] using
      foldl_update_withBroad (acceptedAthletes rows 0) initSummary

/-- C10: every accepted athlete's position (the empty string included)
    appears as a key of the positions frequency table, the counts of the
    table sum to total_athletes, and total_athletes equals
    totalRecords. -/
theorem positions_table_invariant (rows : List RawRow) :
    (∀ a ∈ (process_combine_data rows).athletes,
        a.position ∈ (process_combine_data rows).summary.positions.map Prod.fst) ∧
    ((process_combine_data rows).summary.positions.map Prod.snd).sum =
        (process_combine_data rows).summary.total_athletes ∧
    (process_combine_data rows).summary.total_athletes =
        (process_combine_data rows).totalRecords := by
  show (∀ a ∈ (processRows rows).1,
        a.position ∈ (processRows rows).2.positions.map Prod.fst) ∧
      ((processRows rows).2.positions.map Prod.snd).sum =
        (processRows rows).2.total_athletes ∧
      (processRows rows).2.total_athletes = (processRows rows).1.length
  rw [processRows_eq]
  refine ⟨?_, ?_, ?_⟩
  · intro a ha
    rw [foldl_update_positions]
    exact posFold_mem _ _ _ ha
  · rw [foldl_update_positions, foldl_update_total, posFold_sum]
    simp [initSummary]
  · rw [foldl_update_total]
    simp [initSummary]

/-! ### Concrete rows and evaluation lemmas -/

theorem clean_eval_45 : clean_numeric_value (some ['4', '.', '5']) = some (9 / 2) := by
  simp +decide [clean_numeric_value, pyFloatParse, parseMantissa, parseExpPart,
    readSign, trim, applyExp, digitsVal, isSpaceChar, isDigitChar] <;> norm_num

theorem clean_eval_47 : clean_numeric_value (some ['4', '.', '7']) = some (47 / 10) := by
  simp +decide [clean_numeric_value, pyFloatParse, parseMantissa, parseExpPart,
    readSign, trim, applyExp, digitsVal, isSpaceChar, isDigitChar] <;> norm_num

theorem clean_eval_0 : clean_numeric_value (some ['0']) = some 0 := by
  simp +decide [clean_numeric_value, pyFloatParse, parseMantissa, parseExpPart,
    readSign, trim, applyExp, digitsVal, isSpaceChar, isDigitChar] <;> norm_num

theorem clean_eval_30 : clean_numeric_value (some ['3', '0']) = some 30 := by
  simp +decide [clean_numeric_value, pyFloatParse, parseMantissa, parseExpPart,
    readSign, trim, applyExp, digitsVal, isSpaceChar, isDigitChar] <;> norm_num

theorem parse_height_nil : parse_height_to_inches [] = none := by decide

/-- A row whose only populated column is a 40-yard dash of 4.5. -/
def rowDash45 : RawRow := { forty_yard_dash := some ['4', '.', '5'] }

/-- A row whose only populated column is a 40-yard dash of 4.7. -/
def rowDash47 : RawRow := { forty_yard_dash := some ['4', '.', '7'] }

/-- A row whose only populated column is a weight of 0: every metric
    field of the built athlete is null except weight, which is some 0. -/
def rowWeight0 : RawRow := { weight := some ['0'] }

/-- A row with a vertical jump of 30 (so it is accepted) and a 40-yard
    dash of 0 (non-null but zero). -/
def rowVert30Dash0 : RawRow :=
  { vertical_jump := some ['3', '0'], forty_yard_dash := some ['0'] }

theorem accept_rowDash45 : acceptAthlete (mkAthlete 0 rowDash45) = true := by
  simp only [acceptAthlete, mkAthlete, rowDash45, clean_eval_45, truthy]
  norm_num

theorem accept_rowVert30Dash0 : acceptAthlete (mkAthlete 0 rowVert30Dash0) = true := by
  simp only [acceptAthlete, mkAthlete, rowVert30Dash0, clean_eval_30, truthy]
  norm_num

theorem clean_eval_none : clean_numeric_value none = none := rfl

theorem truthy_some_zero : truthy (some (0 : ℚ)) = false := by
  simp [truthy]

theorem reject_rowWeight0 : acceptAthlete (mkAthlete 0 rowWeight0) = false := by
  simp only [acceptAthlete, mkAthlete, rowWeight0, Option.getD_none,
    clean_eval_none, clean_eval_0, parse_height_nil, truthy_some_zero]
  simp [truthy]

/-- C1 counterexample: the row whose only datum is weight 0 builds an
    athlete whose weight is non-null (some 0), yet the output athletes
    sequence is empty — presence is not equivalent to having a non-null
    field among the five. -/
theorem weight_zero_row_dropped :
    (mkAthlete 0 rowWeight0).weight = some 0 ∧
      (process_combine_data [rowWeight0]).athletes = [] := by
  constructor
  · show clean_numeric_value (some ['0']) = some 0
    exact clean_eval_0
  · show (processRows [rowWeight0]).1 = []
    rw [processRows_eq]
    simp [acceptedAthletes, reject_rowWeight0]

/-- C1 witness: a row with a truthy 40-yard dash is present in the
    output of processing that single row. -/
theorem athlete_present_witness :
    ∃ k, mkAthlete k rowDash45 ∈ (process_combine_data [rowDash45]).athletes := by
  refine (athlete_present_iff_truthy_metric [rowDash45] rowDash45 ?_).mpr (Or.inl ?_)
  · exact List.mem_singleton.mpr rfl
  · show truthy (clean_numeric_value (some ['4', '.', '5'])) = true
    rw [clean_eval_45]
    simp only [truthy, decide_eq_true_eq]
    norm_num

/-- C3 counterexample: one accepted row with a non-null but zero 40-yard
    dash; with_40_time is 0 while the number of accepted athletes whose
    dash40 is non-null is 1. -/
theorem with40_count_mismatch :
    (process_combine_data [rowVert30Dash0]).summary.with_40_time = 0 ∧
      (process_combine_data [rowVert30Dash0]).athletes.countP
        (fun a => a.dash40.isSome) = 1 := by
  have hath : (process_combine_data [rowVert30Dash0]).athletes =
      [mkAthlete 0 rowVert30Dash0] := by
    show (processRows [rowVert30Dash0]).1 = _
    rw [processRows_eq]
    simp [acceptedAthletes, accept_rowVert30Dash0]
  constructor
  · show (processRows [rowVert30Dash0]).2.with_40_time = 0
    rw [processRows_eq]
    simp only [acceptedAthletes, accept_rowVert30Dash0, if_true]
    show (List.foldl updateSummary initSummary
      [mkAthlete 0 rowVert30Dash0]).with_40_time = 0
    rw [foldl_update_with40]
    have : truthy (mkAthlete 0 rowVert30Dash0).dash40 = false := by
      show truthy (clean_numeric_value (some ['0'])) = false
      rw [clean_eval_0]
      simp [truthy]
    simp [initSummary, List.countP_cons, this]
  · rw [hath]
    have : (mkAthlete 0 rowVert30Dash0).dash40.isSome = true := by
      show (clean_numeric_value (some ['0'])).isSome = true
      rw [clean_eval_0]
      rfl
    simp [List.countP_cons, this]

/-- C10 witness: in the single-accepted-row run, the (empty) position of
    the accepted athlete is a key of the positions table. -/
theorem positions_table_witness :
    (mkAthlete 0 rowDash45).position ∈
      (process_combine_data [rowDash45]).summary.positions.map Prod.fst := by
  refine (positions_table_invariant [rowDash45]).1 (mkAthlete 0 rowDash45) ?_
  show mkAthlete 0 rowDash45 ∈ (processRows [rowDash45]).1
  rw [processRows_eq]
  simp [acceptedAthletes, accept_rowDash45]

/-! ### C9: the parsers are total -/

theorem takeWhile_all_digits (cs : List Char) :
    (cs.takeWhile isDigitChar).all isDigitChar = true := List.all_takeWhile

theorem getLastD_mem (l : List Char) (h : l ≠ []) : l.getLastD '0' ∈ l := by
  have : l.getLastD '0' = l.getLast h := by
    rw [List.getLastD_eq_getLast? '0' l, List.getLast?_eq_getLast l h]
    rfl
  rw [this]
  exact List.getLast_mem h

theorem regexFeetInches_groups (cs f i : List Char)
    (h : regexFeetInches cs = some (f, i)) :
    f ≠ [] ∧ f.all isDigitChar = true ∧ i ≠ [] ∧ i.all isDigitChar = true := by
  have hall := takeWhile_all_digits cs
  simp only [regexFeetInches] at h
  by_cases hd : (cs.takeWhile isDigitChar).isEmpty = true
  · rw [if_pos hd] at h; cases h
  · rw [if_neg hd] at h
    have hdne : cs.takeWhile isDigitChar ≠ [] := by
      simpa [List.isEmpty_iff] using hd
    set rest2 := if (cs.dropWhile isDigitChar).head? = some '\'' then
        (cs.dropWhile isDigitChar).tail else cs.dropWhile isDigitChar with hrest2
    by_cases hg : ((rest2.dropWhile isSpaceChar).takeWhile isDigitChar).isEmpty = true
    · rw [if_pos hg] at h
      by_cases hlen : 2 ≤ (cs.takeWhile isDigitChar).length
      · rw [if_pos hlen] at h
        injection h with h'
        injection h' with h1 h2
        refine ⟨?_, ?_, ?_, ?_⟩
        · rw [← h1]
          have : (cs.takeWhile isDigitChar).dropLast.length =
              (cs.takeWhile isDigitChar).length - 1 := List.length_dropLast _
          intro hcon
          rw [hcon] at this
          simp at this
          omega
        · rw [← h1]
          refine List.all_eq_true.mpr ?_
          intro a ha
          exact List.all_eq_true.mp hall a ((List.dropLast_sublist _).mem ha)
        · rw [← h2]; simp
        · rw [← h2]
          refine List.all_eq_true.mpr ?_
          intro a ha
          rcases List.mem_singleton.mp ha with rfl
          exact List.all_eq_true.mp hall _ (getLastD_mem _ hdne)
      · rw [if_neg hlen] at h; cases h
    · rw [if_neg hg] at h
      injection h with h'
      injection h' with h1 h2
      have hgne : (rest2.dropWhile isSpaceChar).takeWhile isDigitChar ≠ [] := by
        simpa [List.isEmpty_iff] using hg
      refine ⟨?_, ?_, ?_, ?_⟩
      · rw [← h1]; exact hdne
      · rw [← h1]; exact hall
      · rw [← h2]; exact hgne
      · rw [← h2]; exact List.all_takeWhile

theorem regexFeetOnly_groups (cs f : List Char)
    (h : regexFeetOnly cs = some f) :
    f ≠ [] ∧ f.all isDigitChar = true := by
  have hall := takeWhile_all_digits cs
  simp only [regexFeetOnly] at h
  by_cases hd : (cs.takeWhile isDigitChar).isEmpty = true
  · rw [if_pos hd] at h; cases h
  · rw [if_neg hd] at h
    have hdne : cs.takeWhile isDigitChar ≠ [] := by
      simpa [List.isEmpty_iff] using hd
    revert h
    cases hdw : cs.dropWhile isDigitChar with
    | nil => intro h; cases h
    | cons c rest =>
      intro h
      by_cases hc : c = '\''
      · subst hc
        injection h with h1
        exact ⟨h1 ▸ hdne, h1 ▸ hall⟩
      · exfalso
        revert h
        cases c <;> simp_all

/-- C9: on every input, the numeric coercion and the height parser
    complete without a modelled exception escaping: the checked variants
    (in which int() and float() can fail) return Except.ok of exactly
    the value of the pure functions. -/
theorem parsers_never_raise (s : List Char) (v : Option (List Char)) :
    parseHeightChecked s = Except.ok (parse_height_to_inches s) ∧
      cleanNumericChecked v = Except.ok (clean_numeric_value v) := by
  constructor
  · simp only [parseHeightChecked, parse_height_to_inches]
    by_cases ht : (trim s).isEmpty = true
    · rw [if_pos ht, if_pos ht]
    · rw [if_neg ht, if_neg ht]
      cases hfi : regexFeetInches (trim s) with
      | some p =>
        obtain ⟨f, i⟩ := p
        obtain ⟨hf1, hf2, hi1, hi2⟩ := regexFeetInches_groups _ _ _ hfi
        simp [intParseChecked, hf1, hf2, hi1, hi2]
        rfl
      | none =>
        cases hfo : regexFeetOnly (trim s) with
        | some f =>
          obtain ⟨hf1, hf2⟩ := regexFeetOnly_groups _ _ hfo
          simp [intParseChecked, hf1, hf2]
          rfl
        | none => rfl
  · cases v with
    | none => rfl
    | some s' =>
      by_cases ht : (trim s').isEmpty = true <;>
        cases hp : pyFloatParse s' <;>
          simp [cleanNumericChecked, clean_numeric_value, pyFloatChecked, hp, ht]

/-! ### C2: characterization of the height parser -/

/-- A nonempty run of ASCII digits. -/
def digitRun (l : List Char) : Prop :=
  l ≠ [] ∧ ∀ c ∈ l, isDigitChar c = true

theorem digit_not_space (c : Char) (h : isDigitChar c = true) :
    isSpaceChar c = false := by
  by_contra hcon
  have hsp : isSpaceChar c = true := by
    cases hv : isSpaceChar c with
    | true => rfl
    | false => exact absurd hv hcon
  simp only [isSpaceChar, Bool.or_eq_true, decide_eq_true_eq] at hsp
  rcases hsp with ((((rfl | rfl) | rfl) | rfl) | rfl) | rfl <;>
    exact absurd h (by decide)

theorem head?_append_left (l1 l2 : List Char) (h : l1 ≠ []) :
    (l1 ++ l2).head? = l1.head? := by
  cases l1 with
  | nil => exact absurd rfl h
  | cons a t => rfl

theorem getLast?_append_right (l1 l2 : List Char) (h : l2 ≠ []) :
    (l1 ++ l2).getLast? = l2.getLast? := by
  rw [List.getLast?_append]
  cases hl : l2.getLast? with
  | none =>
    have : l2 = [] := by simpa using hl
    exact absurd this h
  | some c => rfl

theorem dropWhile_eq_self_of_head (p : Char → Bool) (l : List Char)
    (h : ∀ c, l.head? = some c → p c = false) : l.dropWhile p = l := by
  cases l with
  | nil => rfl
  | cons a t =>
    rw [List.dropWhile_cons_of_neg]
    simp [h a rfl]

theorem takeWhile_eq_nil_of_head (p : Char → Bool) (l : List Char)
    (h : ∀ c, l.head? = some c → p c = false) : l.takeWhile p = [] := by
  cases l with
  | nil => rfl
  | cons a t =>
    rw [List.takeWhile_cons_of_neg]
    simp [h a rfl]

theorem takeWhile_eq_self_of_all (p : Char → Bool) (l : List Char)
    (h : ∀ c ∈ l, p c = true) : l.takeWhile p = l := by
  induction l with
  | nil => rfl
  | cons a t ih =>
    rw [List.takeWhile_cons_of_pos (h a (List.mem_cons_self a t))]
    rw [ih (fun c hc => h c (List.mem_cons_of_mem a hc))]

theorem trim_eq_self (l : List Char)
    (h1 : ∀ c, l.head? = some c → isSpaceChar c = false)
    (h2 : ∀ c, l.getLast? = some c → isSpaceChar c = false) :
    trim l = l := by
  unfold trim
  rw [dropWhile_eq_self_of_head _ l h1]
  rw [dropWhile_eq_self_of_head _ l.reverse
    (fun c hc => h2 c (by rwa [List.head?_reverse] at hc))]
  exact List.reverse_reverse l

/-- The splitting of a digit run followed by a non-digit remainder. -/
theorem span_digits (F rest : List Char)
    (hF : ∀ c ∈ F, isDigitChar c = true)
    (hr : ∀ c, rest.head? = some c → isDigitChar c = false) :
    (F ++ rest).takeWhile isDigitChar = F ∧
      (F ++ rest).dropWhile isDigitChar = rest := by
  constructor
  · rw [List.takeWhile_append_of_pos hF, takeWhile_eq_nil_of_head _ rest hr,
      List.append_nil]
  · rw [List.dropWhile_append_of_pos hF, dropWhile_eq_self_of_head _ rest hr]

theorem trim_digit_shape (F rest : List Char) (hFne : F ≠ [])
    (hF : ∀ c ∈ F, isDigitChar c = true)
    (hlast : ∀ c, (F ++ rest).getLast? = some c → isSpaceChar c = false) :
    trim (F ++ rest) = F ++ rest := by
  apply trim_eq_self
  · intro c hc
    rw [head?_append_left _ _ hFne] at hc
    exact digit_not_space c (hF c (List.mem_of_mem_head? (by simp [hc])))
  · exact hlast

theorem getLast?_digitRun_not_space (I : List Char)
    (hI : ∀ c ∈ I, isDigitChar c = true) :
    ∀ c, I.getLast? = some c → isSpaceChar c = false := by
  intro c hc
  exact digit_not_space c (hI c (List.mem_of_mem_getLast? hc))

theorem digitRun_head_not_space (I : List Char)
    (hId : ∀ c ∈ I, isDigitChar c = true) :
    ∀ c, I.head? = some c → isSpaceChar c = false :=
  fun c hc => digit_not_space c (hId c (List.mem_of_mem_head? (by simp [hc])))

theorem regexFI_quote_space (F I : List Char) (hF : digitRun F) (hI : digitRun I) :
    regexFeetInches (F ++ '\'' :: ' ' :: I) = some (F, I) := by
  obtain ⟨hFne, hFd⟩ := hF
  obtain ⟨hIne, hId⟩ := hI
  have hsp := span_digits F ('\'' :: ' ' :: I) hFd
    (by intro c hc; simp at hc; rw [← hc]; decide)
  have hdwI : I.dropWhile isSpaceChar = I :=
    dropWhile_eq_self_of_head _ I (digitRun_head_not_space I hId)
  have htwI : I.takeWhile isDigitChar = I := takeWhile_eq_self_of_all _ I hId
  simp only [regexFeetInches, hsp.1, hsp.2]
  simp +decide [List.isEmpty_iff, hFne, hIne, hdwI, htwI]

theorem regexFI_quote_adj (F I : List Char) (hF : digitRun F) (hI : digitRun I) :
    regexFeetInches (F ++ '\'' :: I) = some (F, I) := by
  obtain ⟨hFne, hFd⟩ := hF
  obtain ⟨hIne, hId⟩ := hI
  have hsp := span_digits F ('\'' :: I) hFd
    (by intro c hc; simp at hc; rw [← hc]; decide)
  have hdwI : I.dropWhile isSpaceChar = I :=
    dropWhile_eq_self_of_head _ I (digitRun_head_not_space I hId)
  have htwI : I.takeWhile isDigitChar = I := takeWhile_eq_self_of_all _ I hId
  simp only [regexFeetInches, hsp.1, hsp.2]
  simp +decide [List.isEmpty_iff, hFne, hIne, hdwI, htwI]

theorem digitRun_concat_all (E : List Char) (c : Char)
    (hEd : ∀ x ∈ E, isDigitChar x = true) (hc : isDigitChar c = true) :
    ∀ x ∈ E ++ [c], isDigitChar x = true := by
  intro x hx
  rcases List.mem_append.mp hx with h1 | h2
  · exact hEd x h1
  · rcases List.mem_singleton.mp h2 with rfl
    exact hc

theorem regexFI_digit_concat (E : List Char) (c : Char)
    (hE : digitRun E) (hc : isDigitChar c = true) :
    regexFeetInches (E ++ [c]) = some (E, [c]) := by
  obtain ⟨hEne, hEd⟩ := hE
  have hall := digitRun_concat_all E c hEd hc
  have hsp := span_digits (E ++ [c]) [] hall (by intro x hx; cases hx)
  rw [List.append_nil] at hsp
  have hlen : 2 ≤ (E ++ [c]).length := by
    have h1 := List.length_pos.mpr hEne
    simp only [List.length_append, List.length_cons, List.length_nil]
    omega
  simp only [regexFeetInches, hsp.1, hsp.2]
  simp +decide [List.isEmpty_iff, hEne, hlen, List.dropLast_concat,
    List.getLastD_concat]

theorem regexFI_digit_concat_quote (E : List Char) (c : Char)
    (hE : digitRun E) (hc : isDigitChar c = true) :
    regexFeetInches (E ++ [c, '\'']) = some (E, [c]) := by
  obtain ⟨hEne, hEd⟩ := hE
  have hall := digitRun_concat_all E c hEd hc
  have hshape : E ++ [c, '\''] = (E ++ [c]) ++ ['\''] := by simp
  have hsp : (E ++ [c, '\'']).takeWhile isDigitChar = E ++ [c] ∧
      (E ++ [c, '\'']).dropWhile isDigitChar = ['\''] := by
    rw [hshape]
    exact span_digits (E ++ [c]) ['\''] hall
      (by intro x hx; simp at hx; rw [← hx]; decide)
  have hlen : 2 ≤ (E ++ [c]).length := by
    have h1 := List.length_pos.mpr hEne
    simp only [List.length_append, List.length_cons, List.length_nil]
    omega
  simp only [regexFeetInches, hsp.1, hsp.2]
  simp +decide [List.isEmpty_iff, hEne, hlen, List.dropLast_concat,
    List.getLastD_concat]

theorem regexFI_single_quote (c : Char) (hc : isDigitChar c = true) :
    regexFeetInches [c, '\''] = none := by
  have hsp : ([c, '\'']).takeWhile isDigitChar = [c] ∧
      ([c, '\'']).dropWhile isDigitChar = ['\''] :=
    span_digits [c] ['\'']
      (by intro x hx; rcases List.mem_singleton.mp hx with rfl; exact hc)
      (by intro x hx; simp at hx; rw [← hx]; decide)
  simp only [regexFeetInches, hsp.1, hsp.2]
  simp +decide

theorem regexFO_single_quote (c : Char) (hc : isDigitChar c = true) :
    regexFeetOnly [c, '\''] = some [c] := by
  have hsp : ([c, '\'']).takeWhile isDigitChar = [c] ∧
      ([c, '\'']).dropWhile isDigitChar = ['\''] :=
    span_digits [c] ['\'']
      (by intro x hx; rcases List.mem_singleton.mp hx with rfl; exact hc)
      (by intro x hx; simp at hx; rw [← hx]; decide)
  simp only [regexFeetOnly, hsp.1, hsp.2]
  simp +decide [List.isEmpty_iff]

theorem digitsVal_single (c : Char) : digitsVal [c] = c.toNat - 48 := by
  simp [digitsVal]

theorem parse_height_eval (s : List Char) (hne : s ≠ []) (htr : trim s = s) :
    parse_height_to_inches s =
      match regexFeetInches s with
      | some (f, i) => some ((digitsVal f * 12 + digitsVal i : ℕ) : ℚ)
      | none =>
        match regexFeetOnly s with
        | some f => some ((digitsVal f * 12 : ℕ) : ℚ)
        | none => none := by
  simp only [parse_height_to_inches, htr]
  rw [if_neg (by simp [List.isEmpty_iff, hne])]

theorem append_cons_ne_nil (F : List Char) (a : Char) (t : List Char) :
    F ++ a :: t ≠ [] := by
  cases F <;> simp

/-- C2 (amended): strings of the forms feet-quote-space-inches and
    feet-quote-inches parse to feet times 12 plus inches, and a single
    digit followed by a quote parses to that digit times 12, as the
    claim states; but the quote is optional in the first regex and its
    leading group backtracks, so a digit run followed by one more digit
    (with or without a trailing quote) parses with the last digit taken
    as the inches group — in particular a multi-digit feet-quote string
    does NOT parse as feet times 12.  Strings whose stripped form does
    not begin with a digit (in particular empty and whitespace-only
    strings) parse to none. -/
theorem parse_height_amended :
    (∀ F I : List Char, digitRun F → digitRun I →
      parse_height_to_inches (F ++ '\'' :: ' ' :: I) =
          some ((digitsVal F * 12 + digitsVal I : ℕ) : ℚ) ∧
        parse_height_to_inches (F ++ '\'' :: I) =
          some ((digitsVal F * 12 + digitsVal I : ℕ) : ℚ)) ∧
    (∀ c : Char, isDigitChar c = true →
      parse_height_to_inches [c, '\''] = some (((c.toNat - 48) * 12 : ℕ) : ℚ)) ∧
    (∀ (E : List Char) (c : Char), digitRun E → isDigitChar c = true →
      parse_height_to_inches (E ++ [c]) =
          some ((digitsVal E * 12 + (c.toNat - 48) : ℕ) : ℚ) ∧
        parse_height_to_inches (E ++ [c, '\'']) =
          some ((digitsVal E * 12 + (c.toNat - 48) : ℕ) : ℚ)) ∧
    (∀ s : List Char, (trim s).takeWhile isDigitChar = [] →
      parse_height_to_inches s = none) := by
  refine ⟨?_, ?_, ?_, ?_⟩
  · intro F I hF hI
    constructor
    · have htr : trim (F ++ '\'' :: ' ' :: I) = F ++ '\'' :: ' ' :: I := by
        apply trim_digit_shape F _ hF.1 hF.2
        intro c hc
        rw [getLast?_append_right _ _ (by simp)] at hc
        rw [show ('\'' :: ' ' :: I).getLast? = I.getLast? from
          getLast?_append_right ['\'', ' '] I hI.1] at hc
        exact getLast?_digitRun_not_space I hI.2 c hc
      rw [parse_height_eval _ (append_cons_ne_nil F _ _) htr,
        regexFI_quote_space F I hF hI]
    · have htr : trim (F ++ '\'' :: I) = F ++ '\'' :: I := by
        apply trim_digit_shape F _ hF.1 hF.2
        intro c hc
        rw [getLast?_append_right _ _ (by simp)] at hc
        rw [show ('\'' :: I).getLast? = I.getLast? from
          getLast?_append_right ['\''] I hI.1] at hc
        exact getLast?_digitRun_not_space I hI.2 c hc
      rw [parse_height_eval _ (append_cons_ne_nil F _ _) htr,
        regexFI_quote_adj F I hF hI]
  · intro c hc
    have htr : trim [c, '\''] = [c, '\''] := by
      apply trim_eq_self
      · intro x hx
        simp at hx
        rw [← hx]
        exact digit_not_space c hc
      · intro x hx
        rw [show ([c, '\'']).getLast? = some '\'' by rfl] at hx
        simp at hx
        rw [← hx]
        decide
    rw [parse_height_eval _ (by simp) htr, regexFI_single_quote c hc,
      regexFO_single_quote c hc]
    simp [digitsVal_single]
  · intro E c hE hc
    constructor
    · have htr : trim (E ++ [c]) = E ++ [c] := by
        apply trim_digit_shape E _ hE.1 hE.2
        intro x hx
        rw [getLast?_append_right _ _ (by simp)] at hx
        simp at hx
        rw [← hx]
        exact digit_not_space c hc
      rw [parse_height_eval _ (append_cons_ne_nil E _ _) htr,
        regexFI_digit_concat E c hE hc]
      simp [digitsVal_single]
    · have htr : trim (E ++ [c, '\'']) = E ++ [c, '\''] := by
        apply trim_digit_shape E _ hE.1 hE.2
        intro x hx
        rw [getLast?_append_right _ _ (by simp)] at hx
        rw [show ([c, '\'']).getLast? = some '\'' by rfl] at hx
        simp at hx
        rw [← hx]
        decide
      rw [parse_height_eval _ (append_cons_ne_nil E _ _) htr,
        regexFI_digit_concat_quote E c hE hc]
      simp [digitsVal_single]
  · intro s h
    simp only [parse_height_to_inches]
    by_cases ht : (trim s).isEmpty = true
    · rw [if_pos ht]
    · rw [if_neg ht]
      have h1 : regexFeetInches (trim s) = none := by
        simp [regexFeetInches, h]
      have h2 : regexFeetOnly (trim s) = none := by
        simp [regexFeetOnly, h]
      rw [h1, h2]

/-- C2 counterexample: the claim as stated fails twice on the code.  The
    string of a two-digit feet value followed by a quote, 12 then a
    quote, is of the form feet-quote and should parse to 144, but the
    first regex backtracks and yields 1 foot 2 inches, 14.  The string
    6 then 2 with no quote at all matches none of the described forms
    and should parse to null, but parses to 74. -/
theorem parse_height_counterexample :
    (parse_height_to_inches ['1', '2', '\''] = some 14 ∧
      parse_height_to_inches ['1', '2', '\''] ≠ some 144) ∧
    (parse_height_to_inches ['6', '2'] = some 74 ∧
      parse_height_to_inches ['6', '2'] ≠ none) := by decide

/-- C2 witness: the amended characterization applied at concrete
    strings covering each of its four clauses. -/
theorem parse_height_amended_witness :
    parse_height_to_inches ['6', '\'', ' ', '2'] = some 74 ∧
      parse_height_to_inches ['6', '\'', '2'] = some 74 ∧
      parse_height_to_inches ['5', '\''] = some 60 ∧
      parse_height_to_inches ['7', '3'] = some 87 ∧
      parse_height_to_inches ['a', 'b'] = none := by
  have h := parse_height_amended
  refine ⟨?_, ?_, ?_, ?_, ?_⟩
  · have h1 := (h.1 ['6'] ['2'] ⟨by decide, by decide⟩ ⟨by decide, by decide⟩).1
    simp only [List.cons_append, List.nil_append] at h1
    rw [h1]
    simp +decide [digitsVal]
  · have h1 := (h.1 ['6'] ['2'] ⟨by decide, by decide⟩ ⟨by decide, by decide⟩).2
    simp only [List.cons_append, List.nil_append] at h1
    rw [h1]
    simp +decide [digitsVal]
  · have h1 := h.2.1 '5' (by decide)
    rw [h1]
    simp +decide
  · have h1 := (h.2.2.1 ['7'] '3' ⟨by decide, by decide⟩ (by decide)).1
    simp only [List.cons_append, List.nil_append] at h1
    rw [h1]
    simp +decide [digitsVal]
  · exact h.2.2.2 ['a', 'b'] (by decide)

/-! ### C4: metric statistics -/

/-- Sample variance in its sum-of-squares form, used as the
    specification-side description of the N - 1 denominator. -/
def sampleVarAlt (l : List ℚ) : ℚ :=
  ((l.map (fun x => x ^ 2)).sum - l.length * listMean l ^ 2) / ((l.length : ℚ) - 1)

theorem sum_sq_sub (m : ℚ) (l : List ℚ) :
    (l.map (fun x => (x - m) ^ 2)).sum =
      (l.map (fun x => x ^ 2)).sum - 2 * m * l.sum + l.length * m ^ 2 := by
  induction l with
  | nil => simp
  | cons a t ih =>
    simp only [List.map_cons, List.sum_cons, List.length_cons, ih]
    push_cast
    ring

theorem length_smul_mean (l : List ℚ) : (l.length : ℚ) * listMean l = l.sum := by
  by_cases h : l = []
  · subst h; simp [listMean]
  · have hne : (l.length : ℚ) ≠ 0 :=
      Nat.cast_ne_zero.mpr (by simpa [List.length_eq_zero] using h)
    rw [listMean]
    field_simp

theorem sampleVar_eq_alt (l : List ℚ) : sampleVarQ l = sampleVarAlt l := by
  unfold sampleVarQ sampleVarAlt
  rw [sum_sq_sub]
  congr 1
  rw [← length_smul_mean l]
  ring

theorem calcMetric_count (vs : List ℚ) : (calcMetric vs).count = vs.length := by
  unfold calcMetric
  split <;> rfl

theorem length_filterMap_isSome (f : AthleteRecord → Option ℚ)
    (l : List AthleteRecord) :
    (l.filterMap f).length = (l.filter (fun a => (f a).isSome)).length := by
  induction l with
  | nil => rfl
  | cons a t ih =>
    cases hf : f a <;> simp [List.filterMap_cons, List.filter_cons, hf, ih]

/-- C4: for every metric, count is the number of accepted athletes with
    a non-null value (tested with is-not-None, not truthiness); none of
    the fallible statistics calls can fail (in particular stdev is never
    attempted on fewer than two values); below two values all four
    summary numbers are null; from two values on, the standard deviation
    uses the N - 1 denominator (stated through the sum-of-squares form)
    and all four numbers are rounded to 2 decimal places. -/
theorem metric_statistics_correct (athletes : List AthleteRecord) (m : Metric) :
    (calculate_metric_statistics athletes m).count =
        (athletes.filter (fun a => (m.get a).isSome)).length ∧
    calcMetricChecked (athletes.filterMap m.get) =
        Except.ok (calculate_metric_statistics athletes m) ∧
    ((athletes.filterMap m.get).length < 2 →
      calculate_metric_statistics athletes m =
        { mean := none, std := none, min := none, max := none
        , count := (athletes.filterMap m.get).length }) ∧
    (2 ≤ (athletes.filterMap m.get).length →
      calculate_metric_statistics athletes m =
        { mean := some (round2 ((listMean (athletes.filterMap m.get) : ℚ) : ℝ))
        , std := some (round2 (Real.sqrt
            ((sampleVarAlt (athletes.filterMap m.get) : ℚ) : ℝ)))
        , min := some (round2 ((listMinQ (athletes.filterMap m.get) : ℚ) : ℝ))
        , max := some (round2 ((listMaxQ (athletes.filterMap m.get) : ℚ) : ℝ))
        , count := (athletes.filterMap m.get).length }) := by
  refine ⟨?_, ?_, ?_, ?_⟩
  · rw [show calculate_metric_statistics athletes m =
      calcMetric (athletes.filterMap m.get) from rfl]
    rw [calcMetric_count, length_filterMap_isSome]
  · by_cases h : 1 < (athletes.filterMap m.get).length
    · have hne : (athletes.filterMap m.get).isEmpty = false := by
        cases hv : athletes.filterMap m.get with
        | nil => rw [hv] at h; simp at h
        | cons a t => rfl
      have hlt : ¬ ((athletes.filterMap m.get).length < 2) := by omega
      simp [calcMetricChecked, calculate_metric_statistics, calcMetric,
        meanChecked, stdevChecked, minChecked, maxChecked, hne, hlt, h]
      rfl
    · simp [calcMetricChecked, calculate_metric_statistics, calcMetric, h]
  · intro h
    rw [show calculate_metric_statistics athletes m =
      calcMetric (athletes.filterMap m.get) from rfl]
    unfold calcMetric
    rw [if_neg (by omega)]
  · intro h
    rw [show calculate_metric_statistics athletes m =
      calcMetric (athletes.filterMap m.get) from rfl]
    unfold calcMetric
    rw [if_pos (by omega), sampleVar_eq_alt]

/-- An athlete record with a single non-null metric, used to witness the
    below-two-values branch. -/
def athleteSolo : AthleteRecord :=
  { id := 1, firstName := [], lastName := [], position := [], state := []
  , gradYear := none, height := none, weight := none, dash40 := some (9 / 2)
  , verticalJump := none, broadJump := none, proAgility := none, lDrill := none
  , conditions := [] }

/-- C4 witness: with one athlete carrying one dash40 value, all four
    numbers are null and the count is 1. -/
theorem metric_statistics_witness :
    calculate_metric_statistics [athleteSolo] Metric.dash40 =
      { mean := none, std := none, min := none, max := none, count := 1 } := by
  have h := (metric_statistics_correct [athleteSolo] Metric.dash40).2.2.1
    (by decide)
  exact h

/-! ### C6: the two-row dash40 scenario -/

theorem accept_rowDash47 : acceptAthlete (mkAthlete 0 rowDash47) = true := by
  simp only [acceptAthlete, mkAthlete, rowDash47, clean_eval_47, truthy]
  norm_num

theorem accept_mk_any_47 (k : Nat) :
    acceptAthlete (mkAthlete k rowDash47) = true := by
  rw [acceptAthlete_mkAthlete_id]
  exact accept_rowDash47

theorem two_rows_athletes :
    (processRows [rowDash45, rowDash47]).1 =
      [mkAthlete 0 rowDash45, mkAthlete 1 rowDash47] := by
  rw [processRows_eq]
  simp only [acceptedAthletes, accept_rowDash45, accept_mk_any_47, if_true]

theorem two_rows_dash40_values :
    (processRows [rowDash45, rowDash47]).1.filterMap Metric.dash40.get =
      [9 / 2, 47 / 10] := by
  rw [two_rows_athletes]
  simp [Metric.get, mkAthlete, rowDash45, rowDash47, clean_eval_45,
    clean_eval_47, List.filterMap_cons]

theorem round2_eval (q : ℚ) (n : ℤ) (h : (q * 100 : ℚ) = (n : ℚ)) :
    round2 ((q : ℝ)) = (n : ℝ) / 100 := by
  unfold round2
  have hq : ((q * 100 : ℚ) : ℝ) = ((n : ℚ) : ℝ) := by rw [h]
  push_cast at hq
  rw [hq, round_intCast]

theorem round_std_two : round (Real.sqrt ((1 / 50 : ℝ)) * 100) = 14 := by
  have h1 : (27 / 200 : ℝ) ≤ Real.sqrt (1 / 50) := by
    rw [Real.le_sqrt' (by norm_num)]
    norm_num
  have h2 : Real.sqrt (1 / 50) < (29 / 200 : ℝ) := by
    rw [Real.sqrt_lt' (by norm_num)]
    norm_num
  rw [round_eq, Int.floor_eq_iff]
  constructor
  · push_cast
    nlinarith
  · push_cast
    nlinarith

/-- C6: processing exactly the two rows with dash40 values 4.5 and 4.7
    yields dash40 statistics mean 4.6, std 0.14, min 4.5, max 4.7,
    count 2 (std is round(sqrt(0.02), 2) = 0.14). -/
theorem two_rows_dash40_statistics :
    (process_combine_data [rowDash45, rowDash47]).metricStatistics Metric.dash40 =
      { mean := some 4.6, std := some 0.14, min := some 4.5, max := some 4.7
      , count := 2 } := by
  show calcMetric ((processRows [rowDash45, rowDash47]).1.filterMap
    Metric.dash40.get) = _
  rw [two_rows_dash40_values]
  unfold calcMetric
  rw [if_pos (by norm_num)]
  have hmean : listMean [(9 / 2 : ℚ), 47 / 10] = 23 / 5 := by
    simp [listMean]
    norm_num
  have hvar : sampleVarQ [(9 / 2 : ℚ), 47 / 10] = 1 / 50 := by
    simp [sampleVarQ, listMean]
    norm_num
  have hmin : listMinQ [(9 / 2 : ℚ), 47 / 10] = 9 / 2 := by
    simp [listMinQ]
    norm_num [min_def]
  have hmax : listMaxQ [(9 / 2 : ℚ), 47 / 10] = 47 / 10 := by
    simp [listMaxQ]
    norm_num [max_def]
  rw [hmean, hvar, hmin, hmax]
  have hcast : ((1 / 50 : ℚ) : ℝ) = (1 / 50 : ℝ) := by push_cast; ring
  simp only [MetricStat.mk.injEq, Option.some.injEq]
  refine ⟨?_, ?_, ?_, ?_, rfl⟩
  · rw [round2_eval (23 / 5) 460 (by norm_num)]
    norm_num
  · rw [hcast]
    unfold round2
    rw [round_std_two]
    norm_num
  · rw [round2_eval (9 / 2) 450 (by norm_num)]
    norm_num
  · rw [round2_eval (47 / 10) 470 (by norm_num)]
    norm_num
